import Mathlib

/-!
Shallow embedding of `src/pool/event.py` (a listener-registration and
dispatch engine): the class-level listener registry with breadth-first
subclass propagation (`_DispatchDescriptor`), the per-instance listener
collections (`_ListenerCollection`), and the unpickling reconstruction
path (`_UnpickleDispatch`).

Listener callables are identified by natural numbers (Python compares
listeners by identity / equality of the callable object).  Classes are
likewise identified by natural numbers; the subclass relation at the
moment of a registration call is a function `sub : ClassId → List ClassId`
giving each class's direct subclasses (`cls.__subclasses__()`).

The class-level storage `_clslevel` of one `_DispatchDescriptor` is a
`defaultdict(list)`, modelled as a total function `ClassId → List Listener`
defaulting to `[]`.  `_ListenerCollection.parent_listeners` aliases the
very list object `parent._clslevel[target_cls]`; mutations of the registry
go through that same object, so the aliasing is modelled by storing the
class key and reading the registry at dispatch time.
-/

namespace PoolEvent

abbrev Listener := Nat
abbrev ClassId := Nat

/-- Class-level listener storage of one event descriptor:
`self._clslevel = defaultdict(list)`. -/
abbrev ClsLevel := ClassId → List Listener

/-- The `while stack:` loop shared by `_DispatchDescriptor.insert`,
`.append` and `.remove`: pop the front, push the popped class's direct
subclasses on the back, and visit the popped class.  `fuel` bounds the
number of iterations (the Python loop terminates because the subclass
relation of live classes is acyclic). -/
def bfsAux (sub : ClassId → List ClassId) : Nat → List ClassId → List ClassId
  | 0, _ => []
  | _ + 1, [] => []
  | fuel + 1, c :: rest => c :: bfsAux sub fuel (rest ++ sub c)

/-- The classes visited, in order, by `stack = [target]; while stack: ...`. -/
def bfsVisit (sub : ClassId → List ClassId) (fuel : Nat) (target : ClassId) :
    List ClassId :=
  bfsAux sub fuel [target]

/-- Model of `self._clslevel[cls].insert(0, obj)` at one class node. -/
def clsInsertAt (cl : ClsLevel) (c : ClassId) (obj : Listener) : ClsLevel :=
  fun x => if x = c then obj :: cl x else cl x

/-- Model of `self._clslevel[cls].append(obj)` at one class node. -/
def clsAppendAt (cl : ClsLevel) (c : ClassId) (obj : Listener) : ClsLevel :=
  fun x => if x = c then cl x ++ [obj] else cl x

/-- Model of `_DispatchDescriptor.insert(obj, target, propagate)`: breadth-first
walk from `target`, prepending `obj` at every visited class node.  (The
`propagate` argument is unused by the class-level method.) -/
def descInsert (sub : ClassId → List ClassId) (fuel : Nat) (obj : Listener)
    (target : ClassId) (cl : ClsLevel) : ClsLevel :=
  (bfsVisit sub fuel target).foldl (fun acc c => clsInsertAt acc c obj) cl

/-- Model of `_DispatchDescriptor.append(obj, target, propagate)`: breadth-first
walk from `target`, appending `obj` at every visited class node. -/
def descAppend (sub : ClassId → List ClassId) (fuel : Nat) (obj : Listener)
    (target : ClassId) (cl : ClsLevel) : ClsLevel :=
  (bfsVisit sub fuel target).foldl (fun acc c => clsAppendAt acc c obj) cl

/-- Python's `list.remove(obj)`: delete the first occurrence of `obj`, or
raise `ValueError` when `obj` is absent. -/
def pyListRemove (l : List Listener) (obj : Listener) :
    Except Unit (List Listener) :=
  if obj ∈ l then .ok (l.erase obj) else .error ()

/-- The body of `_DispatchDescriptor.remove`, run over the visited class
nodes in walk order; the first absent listener raises. -/
def descRemoveAux (obj : Listener) :
    List ClassId → ClsLevel → Except Unit ClsLevel
  | [], cl => .ok cl
  | c :: rest, cl =>
    match pyListRemove (cl c) obj with
    | .error () => .error ()
    | .ok l => descRemoveAux obj rest (fun x => if x = c then l else cl x)

/-- Model of `_DispatchDescriptor.remove(obj, target)`: same breadth-first walk as
registration, removing `obj` from each visited node's sequence. -/
def descRemove (sub : ClassId → List ClassId) (fuel : Nat) (obj : Listener)
    (target : ClassId) (cl : ClsLevel) : Except Unit ClsLevel :=
  descRemoveAux obj (bfsVisit sub fuel target) cl

/-- Instance-level state of `_ListenerCollection`.  `target_cls` is the
key under which `__init__` captured `parent._clslevel[target_cls]`
(the live class-level list); `listeners` is the instance-owned sequence;
`propagate` is the propagate set; `flag_exec_once` is the `_exec_once`
guard flag. -/
structure ListenerCollection where
  target_cls : ClassId
  listeners : List Listener
  propagate : Finset Listener
  flag_exec_once : Bool
deriving DecidableEq

/-- Model of `_ListenerCollection.__init__` reached through
`_DispatchDescriptor.__get__`: empty instance-owned sequence, empty
propagate set, class-attribute `_exec_once = False`. -/
def newListenerCollection (targetCls : ClassId) : ListenerCollection :=
  { target_cls := targetCls
    listeners := []
    propagate := ∅
    flag_exec_once := false }

/-- Model of `_ListenerCollection.__call__(*args)`: invokes `parent_listeners` in
order, then the instance-owned `listeners` in order; this is the sequence
of listeners invoked. -/
def callTrace (cl : ClsLevel) (c : ListenerCollection) : List Listener :=
  cl c.target_cls ++ c.listeners

/-- Model of `__call__` with the argument tuple recorded: each listener receives
the call's arguments unchanged. -/
def callTraceArgs {α : Type} (cl : ClsLevel) (c : ListenerCollection)
    (arg : α) : List (Listener × α) :=
  (callTrace cl c).map (fun f => (f, arg))

/-- Model of `_ListenerCollection.exec_once(*args)`: dispatch only when the guard
flag is unset, then set it; returns the invoked listeners and the new
collection state. -/
def execOnceStep (cl : ClsLevel) (c : ListenerCollection) :
    List Listener × ListenerCollection :=
  if c.flag_exec_once then ([], c)
  else (callTrace cl c, { c with flag_exec_once := true })

/-- Model of `_ListenerCollection.insert(obj, target, propagate)`: prepend to the
instance-owned sequence unless already present; mark propagate only when
newly added. -/
def collInsert (c : ListenerCollection) (obj : Listener)
    (propagateFlag : Bool) : ListenerCollection :=
  if obj ∈ c.listeners then c
  else
    { c with
      listeners := obj :: c.listeners
      propagate := if propagateFlag then insert obj c.propagate
                   else c.propagate }

/-- Model of `_ListenerCollection.append(obj, target, propagate)`: append to the
instance-owned sequence unless already present; mark propagate only when
newly added. -/
def collAppend (c : ListenerCollection) (obj : Listener)
    (propagateFlag : Bool) : ListenerCollection :=
  if obj ∈ c.listeners then c
  else
    { c with
      listeners := c.listeners ++ [obj]
      propagate := if propagateFlag then insert obj c.propagate
                   else c.propagate }

/-- Model of `_ListenerCollection.remove(obj, target)`: when present, delete the
first occurrence from the instance-owned sequence and discard from the
propagate set; silently do nothing otherwise. -/
def collRemove (c : ListenerCollection) (obj : Listener) :
    ListenerCollection :=
  if obj ∈ c.listeners then
    { c with
      listeners := c.listeners.erase obj
      propagate := c.propagate.erase obj }
  else c

/-- Model of `_ListenerCollection.clear()`. -/
def collClear (c : ListenerCollection) : ListenerCollection :=
  { c with listeners := [], propagate := ∅ }

/-- Model of `_ListenerCollection._update(other, only_propagate)`.  Note the
Python condition
`l not in existing_listener_set and not only_propagate or l in self.propagate`
parses as
`(l not in existing_listener_set and not only_propagate) or (l in self.propagate)`,
and `self.propagate` has already been updated with `other.propagate`
before the list comprehension runs. -/
def collUpdate (self other : ListenerCollection)
    (only_propagate : Bool) : ListenerCollection :=
  let prop := self.propagate ∪ other.propagate
  { self with
    propagate := prop
    listeners := self.listeners ++ other.listeners.filter
      (fun l => decide ((l ∉ self.listeners ∧ only_propagate = false)
        ∨ l ∈ prop)) }

/-- A listener behaviour for dispatch with failures: `beh f = some e`
means listener `f` raises error `e`; `none` means it returns normally. -/
def runListeners {ε : Type} (beh : Listener → Option ε) :
    List Listener → List Listener × Option ε
  | [] => ([], none)
  | f :: rest =>
    match beh f with
    | some e => ([f], some e)
    | none =>
      let r := runListeners beh rest
      (f :: r.1, r.2)

/-- Model of `__call__` with fallible listeners: runs the class tier then the
instance tier, stopping at the first listener that raises; returns the
invoked listeners and the propagated error, if any. -/
def callRun {ε : Type} (beh : Listener → Option ε) (cl : ClsLevel)
    (c : ListenerCollection) : List Listener × Option ε :=
  runListeners beh (callTrace cl c)

/-- Model of `_UnpickleDispatch.__call__(_parent_cls)`: scan `_parent_cls.__mro__`
in order for the first class whose `__dict__` holds a `dispatch` member.
Modelled from the spec: the `dispatch_cls` member consulted on the found
class belongs to the dispatcher descriptor, which is not part of this
source file; per the spec it produces a fresh handle bound to the owner
class, so the success value is the found ancestor paired with the class
the fresh handle is bound to.  No match raises (`ReconstructionError` in
the spec's taxonomy, `AttributeError` in Python). -/
def unpickleDispatch (hasDispatch : ClassId → Bool) (mro : List ClassId)
    (parentCls : ClassId) : Except Unit (ClassId × ClassId) :=
  match mro.find? hasDispatch with
  | some c => .ok (c, parentCls)
  | none => .error ()

/-- Reachability through the subclass relation: the classes a
registration-time breadth-first walk from `t` can reach. -/
inductive Reaches (sub : ClassId → List ClassId) (t : ClassId) : ClassId → Prop
  | refl : Reaches sub t t
  | step {b c : ClassId} : Reaches sub t b → c ∈ sub b → Reaches sub t c

/-! Helper lemmas about the breadth-first walk. -/

theorem reaches_trans {sub : ClassId → List ClassId} {a b c : ClassId}
    (h1 : Reaches sub a b) (h2 : Reaches sub b c) : Reaches sub a c := by
  induction h2 with
  | refl => exact h1
  | step _ hm ih => exact Reaches.step ih hm

theorem bfsAux_sound (sub : ClassId → List ClassId) :
    ∀ (fuel : Nat) (q : List ClassId) (c : ClassId),
      c ∈ bfsAux sub fuel q → ∃ s ∈ q, Reaches sub s c := by
  intro fuel
  induction fuel with
  | zero => intro q c h; simp [bfsAux] at h
  | succ f ih =>
    intro q c h
    cases q with
    | nil => simp [bfsAux] at h
    | cons a rest =>
      rw [bfsAux] at h
      rcases List.mem_cons.mp h with rfl | hm
      · exact ⟨c, List.mem_cons_self _ _, Reaches.refl⟩
      · obtain ⟨s, hs, hr⟩ := ih _ _ hm
        rcases List.mem_append.mp hs with h1 | h2
        · exact ⟨s, List.mem_cons_of_mem _ h1, hr⟩
        · exact ⟨a, List.mem_cons_self _ _,
            reaches_trans (Reaches.step Reaches.refl h2) hr⟩

theorem mem_bfsAux_queue (sub : ClassId → List ClassId) :
    ∀ (q : List ClassId) (r : List ClassId) (fuel : Nat) (x : ClassId),
      x ∈ q → q.length ≤ fuel → x ∈ bfsAux sub fuel (q ++ r) := by
  intro q
  induction q with
  | nil => intro r fuel x hx; simp at hx
  | cons a rest ih =>
    intro r fuel x hx hlen
    cases fuel with
    | zero => simp at hlen
    | succ f =>
      rw [List.cons_append, bfsAux]
      rcases List.mem_cons.mp hx with rfl | hx2
      · exact List.mem_cons_self _ _
      · apply List.mem_cons_of_mem
        rw [List.append_assoc]
        exact ih (r ++ sub a) f x hx2
          (by simpa using Nat.succ_le_succ_iff.mp (by simpa using hlen))

theorem mem_bfsAux_self (sub : ClassId → List ClassId) (q : List ClassId)
    (fuel : Nat) (x : ClassId) (hx : x ∈ q) (h : q.length ≤ fuel) :
    x ∈ bfsAux sub fuel q := by
  have := mem_bfsAux_queue sub q [] fuel x hx h
  simpa using this

theorem bfsAux_step_closure (sub : ClassId → List ClassId) :
    ∀ (fuel : Nat) (q : List ClassId) (c d : ClassId),
      c ∈ bfsAux sub fuel q → d ∈ sub c → ∃ f, d ∈ bfsAux sub f q := by
  intro fuel
  induction fuel with
  | zero => intro q c d h _; simp [bfsAux] at h
  | succ f ih =>
    intro q c d h hd
    cases q with
    | nil => simp [bfsAux] at h
    | cons a rest =>
      rw [bfsAux] at h
      rcases List.mem_cons.mp h with rfl | hm
      · refine ⟨(rest ++ sub c).length + 1, ?_⟩
        rw [bfsAux]
        exact List.mem_cons_of_mem _
          (mem_bfsAux_self sub _ _ d (List.mem_append_right _ hd) le_rfl)
      · obtain ⟨f2, hf2⟩ := ih _ c d hm hd
        refine ⟨f2 + 1, ?_⟩
        rw [bfsAux]
        exact List.mem_cons_of_mem _ hf2

theorem bfsVisit_complete (sub : ClassId → List ClassId) (t c : ClassId)
    (h : Reaches sub t c) : ∃ f, c ∈ bfsVisit sub f t := by
  induction h with
  | refl => exact ⟨1, by simp [bfsVisit, bfsAux]⟩
  | step _ hm ih =>
    obtain ⟨f, hf⟩ := ih
    exact bfsAux_step_closure sub f [t] _ _ hf hm

theorem foldl_clsInsertAt (obj : Listener) :
    ∀ (v : List ClassId) (cl : ClsLevel) (x : ClassId),
      (v.foldl (fun acc c => clsInsertAt acc c obj) cl) x =
        List.replicate (v.count x) obj ++ cl x := by
  intro v
  induction v with
  | nil => intro cl x; simp
  | cons c rest ih =>
    intro cl x
    rw [List.foldl_cons, ih]
    by_cases hx : x = c
    · subst hx
      rw [List.count_cons_self, List.replicate_succ']
      simp [clsInsertAt]
    · rw [List.count_cons_of_ne hx]
      simp [clsInsertAt, hx]

theorem foldl_clsAppendAt (obj : Listener) :
    ∀ (v : List ClassId) (cl : ClsLevel) (x : ClassId),
      (v.foldl (fun acc c => clsAppendAt acc c obj) cl) x =
        cl x ++ List.replicate (v.count x) obj := by
  intro v
  induction v with
  | nil => intro cl x; simp
  | cons c rest ih =>
    intro cl x
    rw [List.foldl_cons, ih]
    by_cases hx : x = c
    · subst hx
      rw [List.count_cons_self, List.replicate_succ]
      simp [clsAppendAt]
    · rw [List.count_cons_of_ne hx]
      simp [clsAppendAt, hx]

theorem descInsert_apply (sub : ClassId → List ClassId) (fuel : Nat)
    (obj : Listener) (target : ClassId) (cl : ClsLevel) (x : ClassId) :
    descInsert sub fuel obj target cl x =
      List.replicate ((bfsVisit sub fuel target).count x) obj ++ cl x :=
  foldl_clsInsertAt obj _ cl x

theorem descAppend_apply (sub : ClassId → List ClassId) (fuel : Nat)
    (obj : Listener) (target : ClassId) (cl : ClsLevel) (x : ClassId) :
    descAppend sub fuel obj target cl x =
      cl x ++ List.replicate ((bfsVisit sub fuel target).count x) obj :=
  foldl_clsAppendAt obj _ cl x

theorem collAppend_mem (c : ListenerCollection) (obj : Listener) (q : Bool)
    (h : obj ∈ c.listeners) : collAppend c obj q = c := by
  simp [collAppend, h]

theorem collInsert_mem (c : ListenerCollection) (obj : Listener) (q : Bool)
    (h : obj ∈ c.listeners) : collInsert c obj q = c := by
  simp [collInsert, h]

/-- Concrete subclass snapshot used by witnesses: class `0` has direct
subclass `1`; nothing else has subclasses. -/
def subW : ClassId → List ClassId := fun c => if c = 0 then [1] else []

/-- Concrete empty class-level registry used by witnesses. -/
def clW : ClsLevel := fun _ => []

/-- C2: a class-level registration (insert or append) touches exactly the
classes reachable through the subclass relation at the moment of the call:
every class visited by the walk is reachable and receives the listener,
every class not visited keeps its sequence unchanged (so a class that
becomes a subclass only after the call is untouched by that call), and
every reachable class is visited by the walk given enough fuel. -/
theorem classlevel_registration_snapshot (sub : ClassId → List ClassId)
    (fuel : Nat) (obj : Listener) (t : ClassId) (cl : ClsLevel)
    (c : ClassId) :
    (c ∈ bfsVisit sub fuel t →
      Reaches sub t c ∧ obj ∈ descInsert sub fuel obj t cl c ∧
        obj ∈ descAppend sub fuel obj t cl c) ∧
    (c ∉ bfsVisit sub fuel t →
      descInsert sub fuel obj t cl c = cl c ∧
        descAppend sub fuel obj t cl c = cl c) ∧
    (Reaches sub t c → ∃ f, c ∈ bfsVisit sub f t) := by
  refine ⟨?_, ?_, bfsVisit_complete sub t c⟩
  · intro hc
    have hreach : Reaches sub t c := by
      obtain ⟨s, hs, hr⟩ := bfsAux_sound sub fuel [t] c hc
      simp only [List.mem_singleton] at hs
      exact hs ▸ hr
    have hcount : (bfsVisit sub fuel t).count c ≠ 0 := by
      intro h0
      exact (List.count_eq_zero.mp h0) hc
    refine ⟨hreach, ?_, ?_⟩
    · rw [descInsert_apply]
      exact List.mem_append_left _ (List.mem_replicate.mpr ⟨hcount, rfl⟩)
    · rw [descAppend_apply]
      exact List.mem_append_right _ (List.mem_replicate.mpr ⟨hcount, rfl⟩)
  · intro hc
    have hcount : (bfsVisit sub fuel t).count c = 0 := List.count_eq_zero.mpr hc
    constructor
    · rw [descInsert_apply, hcount]; simp
    · rw [descAppend_apply, hcount]; simp

/-- Witness for C2: in the snapshot hierarchy where class 0 has subclass 1
and class 2 is unrelated (created later), appending listener 7 on class 0
reaches class 1 and leaves class 2's sequence untouched. -/
theorem classlevel_registration_snapshot_witness :
    (1 ∈ bfsVisit subW 3 0 ∧ Reaches subW 0 1 ∧
      7 ∈ descAppend subW 3 7 0 clW 1) ∧
    (2 ∉ bfsVisit subW 3 0 ∧ descAppend subW 3 7 0 clW 2 = clW 2) := by
  constructor
  · have h := (classlevel_registration_snapshot subW 3 7 0 clW 1).1 (by decide)
    exact ⟨by decide, h.1, h.2.2⟩
  · have h := (classlevel_registration_snapshot subW 3 7 0 clW 2).2.1 (by decide)
    exact ⟨by decide, h.2⟩

/-- C3: on a collection whose guard flag is unset, `exec_once` behaves as
a normal dispatch; a second `exec_once` on the resulting collection
invokes nothing and changes nothing, and the invocations across both
calls are exactly those of one dispatch. -/
theorem exec_once_at_most_once (cl : ClsLevel) (c : ListenerCollection)
    (h : c.flag_exec_once = false) :
    (execOnceStep cl c).1 = callTrace cl c ∧
    (execOnceStep cl (execOnceStep cl c).2).1 = [] ∧
    (execOnceStep cl (execOnceStep cl c).2).2 = (execOnceStep cl c).2 ∧
    (execOnceStep cl c).1 ++ (execOnceStep cl (execOnceStep cl c).2).1
      = callTrace cl c := by
  simp [execOnceStep, h]

/-- Witness for C3 on a collection with one class-level and one
instance-level listener. -/
theorem exec_once_at_most_once_witness :
    (collAppend (newListenerCollection 0) 4 false).flag_exec_once = false ∧
    (execOnceStep (fun _ => [3]) (collAppend (newListenerCollection 0) 4 false)).1
      = [3, 4] ∧
    (execOnceStep (fun _ => [3])
      (execOnceStep (fun _ => [3])
        (collAppend (newListenerCollection 0) 4 false)).2).1 = [] := by
  have h := exec_once_at_most_once (fun _ => [3])
    (collAppend (newListenerCollection 0) 4 false) (by decide)
  refine ⟨by decide, ?_, h.2.1⟩
  rw [h.1]; decide

/-- C4: with the target class visited exactly once by the walk,
class-level `append` adds at the back of the target's current sequence
and `insert` at the front, so after `append A`, `append B`, `insert C`
the target's sequence is `C :: (old ++ [A, B])`, and a dispatch on an
instance of that class with no instance-level listeners invokes
`C, A, B`. -/
theorem insert_front_append_back (sub : ClassId → List ClassId) (fuel : Nat)
    (a b c : Listener) (t : ClassId) (cl : ClsLevel)
    (h : (bfsVisit sub fuel t).count t = 1) :
    descInsert sub fuel c t (descAppend sub fuel b t (descAppend sub fuel a t cl)) t
      = c :: (cl t ++ [a, b]) ∧
    (cl t = [] →
      callTrace
        (descInsert sub fuel c t
          (descAppend sub fuel b t (descAppend sub fuel a t cl)))
        (newListenerCollection t) = [c, a, b]) := by
  have h1 : descInsert sub fuel c t
      (descAppend sub fuel b t (descAppend sub fuel a t cl)) t
      = c :: (cl t ++ [a, b]) := by
    rw [descInsert_apply, descAppend_apply, descAppend_apply, h]
    simp
  refine ⟨h1, fun hnil => ?_⟩
  simp [callTrace, newListenerCollection, h1, hnil]

/-- Witness for C4: `append 10`, `append 11`, `insert 12` on class 0 of
the snapshot hierarchy dispatches in order `12, 10, 11`. -/
theorem insert_front_append_back_witness :
    (bfsVisit subW 3 0).count 0 = 1 ∧
    descInsert subW 3 12 0 (descAppend subW 3 11 0 (descAppend subW 3 10 0 clW)) 0
      = [12, 10, 11] ∧
    callTrace
      (descInsert subW 3 12 0 (descAppend subW 3 11 0 (descAppend subW 3 10 0 clW)))
      (newListenerCollection 0) = [12, 10, 11] := by
  have h := insert_front_append_back subW 3 10 11 12 0 clW (by decide)
  exact ⟨by decide, by simpa [clW] using h.1, by simpa [clW] using h.2 rfl⟩

/-- C5: one dispatch invocation runs the whole class-level tier, in
order, before the whole instance-owned tier, in order, handing the call's
argument unchanged to every listener; in particular an instance-level
listener `Q` registered before a class-level listener `P` is still
invoked after it. -/
theorem class_tier_before_instance (α : Type) (cl : ClsLevel)
    (c : ListenerCollection) (arg : α) (P Q : Listener) (t : ClassId)
    (sub : ClassId → List ClassId) (fuel : Nat)
    (h : (bfsVisit sub fuel t).count t = 1) :
    callTraceArgs cl c arg =
      (cl c.target_cls).map (fun f => (f, arg)) ++
        c.listeners.map (fun f => (f, arg)) ∧
    callTrace (descAppend sub fuel P t (fun _ => []))
      (collAppend (newListenerCollection t) Q false) = [P, Q] := by
  constructor
  · simp [callTraceArgs, callTrace]
  · simp [callTrace, collAppend, newListenerCollection, descAppend_apply, h]

/-- Witness for C5: instance listener 5 is registered first, class
listener 4 afterwards, and dispatch still runs `4` then `5`. -/
theorem class_tier_before_instance_witness :
    (bfsVisit subW 3 0).count 0 = 1 ∧
    callTraceArgs clW (newListenerCollection 0) (37 : Nat) = [] ∧
    callTrace (descAppend subW 3 4 0 (fun _ => []))
      (collAppend (newListenerCollection 0) 5 false) = [4, 5] := by
  have h := class_tier_before_instance Nat clW (newListenerCollection 0) 37
    4 5 0 subW 3 (by decide)
  refine ⟨by decide, ?_, h.2⟩
  rw [h.1]; decide

/-- C6: instance-level registration deduplicates by identity (the second
`append` or `insert` of the same listener is a no-op, and the listener
fires exactly once per dispatch), while class-level `append` performed
twice stores two entries. -/
theorem instance_dedup_class_not (c : ListenerCollection) (obj : Listener)
    (p q : Bool) (cl cl2 : ClsLevel) (sub : ClassId → List ClassId)
    (fuel : Nat) (t : ClassId) :
    collAppend (collAppend c obj p) obj q = collAppend c obj p ∧
    collInsert (collInsert c obj p) obj q = collInsert c obj p ∧
    (obj ∉ cl c.target_cls → obj ∉ c.listeners →
      (callTrace cl (collAppend (collAppend c obj p) obj q)).count obj = 1) ∧
    ((bfsVisit sub fuel t).count t = 1 →
      descAppend sub fuel obj t (descAppend sub fuel obj t cl2) t
        = cl2 t ++ [obj] ++ [obj]) := by
  have hmemA : obj ∈ (collAppend c obj p).listeners := by
    by_cases h : obj ∈ c.listeners <;> simp [collAppend, h]
  have hmemI : obj ∈ (collInsert c obj p).listeners := by
    by_cases h : obj ∈ c.listeners <;> simp [collInsert, h]
  refine ⟨collAppend_mem _ obj q hmemA, collInsert_mem _ obj q hmemI,
    fun h1 h2 => ?_, fun hcount => ?_⟩
  · rw [collAppend_mem _ obj q hmemA]
    simp [callTrace, collAppend, h2, List.count_append,
      List.count_eq_zero.mpr h1, List.count_eq_zero.mpr h2]
  · rw [descAppend_apply, descAppend_apply, hcount]
    simp

/-- Witness for C6: appending listener 5 twice at instance level fires it
once per dispatch; appending it twice at class level stores it twice. -/
theorem instance_dedup_class_not_witness :
    5 ∉ clW 0 ∧ 5 ∉ (newListenerCollection 0).listeners ∧
    (callTrace clW
      (collAppend (collAppend (newListenerCollection 0) 5 true) 5 true)).count 5
      = 1 ∧
    (bfsVisit subW 3 0).count 0 = 1 ∧
    descAppend subW 3 5 0 (descAppend subW 3 5 0 clW) 0 = clW 0 ++ [5] ++ [5] := by
  have h := instance_dedup_class_not (newListenerCollection 0) 5 true true
    clW clW subW 3 0
  exact ⟨by decide, by decide, h.2.2.1 (by decide) (by decide), by decide,
    h.2.2.2 (by decide)⟩

/-- C10: re-registering a listener already present in the instance-owned
sequence leaves the whole collection state unchanged, even when the
propagate argument is true. -/
theorem reregister_existing_frame (c : ListenerCollection) (obj : Listener)
    (p q : Bool) (h : obj ∈ c.listeners) :
    collInsert c obj p = c ∧ collAppend c obj q = c :=
  ⟨collInsert_mem c obj p h, collAppend_mem c obj q h⟩

/-- Witness for C10: re-adding listener 5 with `propagate = true` to a
collection already holding it changes nothing, including the propagate
set. -/
theorem reregister_existing_frame_witness :
    5 ∈ (collAppend (newListenerCollection 0) 5 false).listeners ∧
    collInsert (collAppend (newListenerCollection 0) 5 false) 5 true
      = collAppend (newListenerCollection 0) 5 false ∧
    collAppend (collAppend (newListenerCollection 0) 5 false) 5 true
      = collAppend (newListenerCollection 0) 5 false ∧
    (collInsert (collAppend (newListenerCollection 0) 5 false) 5 true).propagate
      = ∅ := by
  have h := reregister_existing_frame
    (collAppend (newListenerCollection 0) 5 false) 5 true true (by decide)
  exact ⟨by decide, h.1, h.2, by rw [h.1]; decide⟩

/-- C1 (code bug): with `only_propagate = true`, `_update` copies a
listener that is flagged propagate in the source even when it is already
present in the destination's instance-owned sequence, because the Python
condition parses as
`(l not in existing_listener_set and not only_propagate) or (l in self.propagate)`
and so bypasses the duplicate check for propagate-flagged listeners.
Here the destination already holds listener 1, the source holds listener
1 flagged propagate, and the merge duplicates it; the spec's own example
(empty destination, listener 1 flagged, listener 2 unflagged) does come
out as the claim says. -/
theorem update_dedup_bypassed :
    (collUpdate ⟨0, [1], ∅, false⟩ ⟨0, [1], {1}, false⟩ true).listeners
      = [1, 1] ∧
    (collUpdate ⟨0, [1], ∅, false⟩ ⟨0, [1], {1}, false⟩ true).listeners
      ≠ [1] ∧
    (collUpdate ⟨0, [], ∅, false⟩ ⟨0, [1, 2], {1}, false⟩ true).listeners
      = [1] := by
  refine ⟨by decide, by decide, by decide⟩

theorem descRemoveAux_error (obj : Listener) :
    ∀ (v : List ClassId) (cl : ClsLevel), (∃ c ∈ v, obj ∉ cl c) →
      descRemoveAux obj v cl = .error () := by
  intro v
  induction v with
  | nil => intro cl h; simp at h
  | cons d rest ih =>
    intro cl h
    obtain ⟨c, hc, habs⟩ := h
    by_cases hd : obj ∈ cl d
    · have hstep : descRemoveAux obj (d :: rest) cl
          = descRemoveAux obj rest
              (fun x => if x = d then (cl d).erase obj else cl x) := by
        simp [descRemoveAux, pyListRemove, hd]
      rw [hstep]
      apply ih
      rcases List.mem_cons.mp hc with rfl | hc2
      · exact absurd hd habs
      · have hne : c ≠ d := fun he => habs (he ▸ hd)
        exact ⟨c, hc2, by simpa [hne] using habs⟩
    · simp [descRemoveAux, pyListRemove, hd]

theorem descRemoveAux_ok (obj : Listener) :
    ∀ (v : List ClassId) (cl : ClsLevel), v.Nodup →
      (∀ c ∈ v, obj ∈ cl c) →
      ∃ cl2, descRemoveAux obj v cl = .ok cl2 ∧
        ∀ x, cl2 x = if x ∈ v then (cl x).erase obj else cl x := by
  intro v
  induction v with
  | nil => intro cl _ _; exact ⟨cl, rfl, by simp⟩
  | cons d rest ih =>
    intro cl hnd hall
    have hd : obj ∈ cl d := hall d (List.mem_cons_self _ _)
    have hstep : descRemoveAux obj (d :: rest) cl
        = descRemoveAux obj rest
            (fun x => if x = d then (cl d).erase obj else cl x) := by
      simp [descRemoveAux, pyListRemove, hd]
    have hndr := List.nodup_cons.mp hnd
    obtain ⟨cl2, hok, hchar⟩ :=
      ih (fun x => if x = d then (cl d).erase obj else cl x) hndr.2
        (by
          intro c hc
          have hne : c ≠ d := fun he => hndr.1 (he ▸ hc)
          simpa [hne] using hall c (List.mem_cons_of_mem _ hc))
    refine ⟨cl2, hstep ▸ hok, ?_⟩
    intro x
    rw [hchar x]
    by_cases hx : x = d
    · subst hx
      simp [hndr.1]
    · by_cases hxr : x ∈ rest <;> simp [hx, hxr]

/-- C7: class-level `remove` runs the same breadth-first subclass walk as
registration and fails when the listener is absent from some visited
node's sequence; when the listener is present at every visited node it
erases the first occurrence at each of them and touches no other class;
instance-level `remove` of an absent listener raises no error and leaves
the collection unchanged. -/
theorem remove_error_vs_silent (sub : ClassId → List ClassId) (fuel : Nat)
    (obj : Listener) (t : ClassId) (cl : ClsLevel)
    (c0 : ListenerCollection) :
    ((∃ c ∈ bfsVisit sub fuel t, obj ∉ cl c) →
      descRemove sub fuel obj t cl = .error ()) ∧
    ((bfsVisit sub fuel t).Nodup →
      (∀ c ∈ bfsVisit sub fuel t, obj ∈ cl c) →
      ∃ cl2, descRemove sub fuel obj t cl = .ok cl2 ∧
        ∀ x, cl2 x = if x ∈ bfsVisit sub fuel t then (cl x).erase obj
                     else cl x) ∧
    (obj ∉ c0.listeners → collRemove c0 obj = c0) := by
  exact ⟨fun h => descRemoveAux_error obj _ cl h,
    fun h1 h2 => descRemoveAux_ok obj _ cl h1 h2,
    fun h => by simp [collRemove, h]⟩

/-- Witness for C7: removing never-added listener 5 class-level on the
snapshot hierarchy fails, while the instance-level removal is a silent
no-op. -/
theorem remove_error_vs_silent_witness :
    5 ∉ clW 0 ∧ descRemove subW 3 5 0 clW = .error () ∧
    5 ∉ (newListenerCollection 0).listeners ∧
    collRemove (newListenerCollection 0) 5 = newListenerCollection 0 := by
  have h := remove_error_vs_silent subW 3 5 0 clW (newListenerCollection 0)
  exact ⟨by decide, h.1 ⟨0, by decide, by decide⟩, by decide,
    h.2.2 (by decide)⟩

theorem runListeners_prefix {ε : Type} (beh : Listener → Option ε)
    (f : Listener) (e : ε) (post : List Listener) (hf : beh f = some e) :
    ∀ (pre : List Listener), (∀ g ∈ pre, beh g = none) →
      runListeners beh (pre ++ f :: post) = (pre ++ [f], some e) := by
  intro pre
  induction pre with
  | nil => intro _; simp [runListeners, hf]
  | cons g pre2 ih =>
    intro hall
    have hg : beh g = none := hall g (List.mem_cons_self _ _)
    simp [runListeners, hg,
      ih (fun x hx => hall x (List.mem_cons_of_mem _ hx))]

/-- C8: when the combined class-then-instance listener sequence is
`pre ++ f :: post` with every listener of `pre` succeeding and `f`
raising `e`, the dispatch invokes exactly `pre ++ [f]` (nothing after the
failing listener) and surfaces `e` itself to the caller. -/
theorem failure_unwrapped_aborts {ε : Type} (beh : Listener → Option ε)
    (cl : ClsLevel) (c : ListenerCollection) (pre post : List Listener)
    (f : Listener) (e : ε) (htr : callTrace cl c = pre ++ f :: post)
    (hf : beh f = some e) (hpre : ∀ g ∈ pre, beh g = none) :
    callRun beh cl c = (pre ++ [f], some e) := by
  rw [callRun, htr]
  exact runListeners_prefix beh f e post hf pre hpre

/-- Concrete listener behaviour used by the C8 witness: listener 2 raises
error 9, all other listeners return normally. -/
def behW : Listener → Option Nat := fun n => if n = 2 then some 9 else none

/-- Witness for C8: with class-level listeners `1, 2, 3` and listener 2
raising, dispatch invokes `1, 2` only and propagates error 9. -/
theorem failure_unwrapped_aborts_witness :
    callTrace (fun _ => [1, 2, 3]) (newListenerCollection 0)
      = [1] ++ 2 :: [3] ∧
    behW 2 = some 9 ∧
    callRun behW (fun _ => [1, 2, 3]) (newListenerCollection 0)
      = ([1, 2], some 9) := by
  refine ⟨by decide, by decide, ?_⟩
  have h := failure_unwrapped_aborts behW (fun _ => [1, 2, 3])
    (newListenerCollection 0) [1] [3] 2 9 (by decide) (by decide) (by decide)
  simpa using h

theorem find_first_match {p : ClassId → Bool} :
    ∀ (pre : List ClassId) (a : ClassId) (post : List ClassId),
      p a = true → (∀ c ∈ pre, p c = false) →
      (pre ++ a :: post).find? p = some a := by
  intro pre
  induction pre with
  | nil =>
    intro a post ha _
    exact List.find?_cons_of_pos _ ha
  | cons d pre2 ih =>
    intro a post ha hall
    have hd : p d = false := hall d (List.mem_cons_self _ _)
    rw [List.cons_append, List.find?_cons_of_neg _ (by simp [hd])]
    exact ih a post ha (fun c hc => hall c (List.mem_cons_of_mem _ hc))

/-- C9: reconstruction scans the owner class's ancestor chain in order;
if no ancestor declares a dispatcher it fails, and at the nearest
declaring ancestor it succeeds with a handle bound to the owner class
whose freshly materialized collections have empty instance-owned
sequences and empty propagate sets while dispatch still sees the live
class-level sequence of the owner class. -/
theorem reconstruct_behaviour (hasDispatch : ClassId → Bool)
    (mro pre post : List ClassId) (a parentCls : ClassId) (cl : ClsLevel) :
    ((∀ c ∈ mro, hasDispatch c = false) →
      unpickleDispatch hasDispatch mro parentCls = .error ()) ∧
    (mro = pre ++ a :: post → hasDispatch a = true →
      (∀ c ∈ pre, hasDispatch c = false) →
      unpickleDispatch hasDispatch mro parentCls = .ok (a, parentCls)) ∧
    (newListenerCollection parentCls).listeners = [] ∧
    (newListenerCollection parentCls).propagate = ∅ ∧
    callTrace cl (newListenerCollection parentCls) = cl parentCls := by
  refine ⟨?_, ?_, rfl, rfl, by simp [callTrace, newListenerCollection]⟩
  · intro h
    have hfind : mro.find? hasDispatch = none := by
      rw [List.find?_eq_none]
      intro x hx
      simp [h x hx]
    simp [unpickleDispatch, hfind]
  · intro hm ha hpre
    subst hm
    rw [unpickleDispatch, find_first_match pre a post ha hpre]

/-- Witness for C9: an ancestor chain with no dispatcher fails; the chain
`[0, 1, 2]` whose nearest declaring ancestor is 1 yields a handle bound
to owner class 5 with empty fresh collections. -/
theorem reconstruct_behaviour_witness :
    unpickleDispatch (fun _ => false) [0, 1] 5 = .error () ∧
    unpickleDispatch (fun c => decide (c = 1)) [0, 1, 2] 5 = .ok (1, 5) ∧
    (newListenerCollection 5).listeners = [] ∧
    callTrace clW (newListenerCollection 5) = clW 5 := by
  have h1 := (reconstruct_behaviour (fun _ => false) [0, 1] [] [] 0 5 clW).1
    (by decide)
  have h2 := reconstruct_behaviour (fun c => decide (c = 1)) [0, 1, 2]
    [0] [2] 1 5 clW
  exact ⟨h1, h2.2.1 rfl (by decide) (by decide), h2.2.2.1, h2.2.2.2.2⟩

end PoolEvent
